import Mathlib

/-!
Service registry contexts (`services/svc/gen_context.go`) and the changeset
editor parser (`platform/apps/changesets/cli.go`).

`gen_context.go` holds a Go `text/template` that is expanded once per entry of a
build-time table of service descriptors.  The embedding below follows the
template: the table is a list of descriptors, a *service* is a position `x` in
that table, and the per-service functions `With<Name>`, `<Name>` and
`<Name>OrNil` are the functions `WithX`, `X` and `XOrNil` taking that position.

Modelling conventions.

* A Go interface value of a service type is `Option Impl`: `none` is the nil
  interface, `some i` a non-nil implementation.
* A value of type `interface{}`, as a context stores it, is a `GoValue`: nil, an
  implementation of the service type, or a value of some other type.
* A `context.Context` is the chain built by `context.WithValue` on top of
  `context.Background()`.  Context nodes that carry no value (cancellation,
  deadlines) forward `Value` to their parent and are therefore left out.
* Keys of the unexported type `contextKey` can only be produced inside package
  `svc`, and `With<Name>` takes its argument at the static type `<TypeName>`;
  hence what `With<Name>` stores under `_<Name>Key` is nil or implements
  `<TypeName>`.
* A Go panic is `Except.error` carrying the panic message.
-/

namespace svc

/-- One entry of the table the template ranges over (`.Name`, `.TypeName`,
`.PkgName`). -/
structure Descriptor where
  Name : String
  TypeName : String
  PkgName : String
deriving Repr, DecidableEq

/-- Context keys.  `contextKey n` is the value `n` of the package-private type
`contextKey int`; `foreign n` stands for any key of another type. -/
inductive Key where
  | contextKey (n : Nat)
  | foreign (n : Nat)
deriving Repr, DecidableEq

/-- The constant `_<Name>Key contextKey = iota` of the `x`-th descriptor: each
line of the `const` block repeats `= iota`, so the `x`-th constant is `x`. -/
def XKey (x : Nat) : Key := Key.contextKey x

/-- A value of type `interface{}`: the nil interface, a non-nil value whose
dynamic type implements the service type asked for, or a non-nil value of a
type that does not. -/
inductive GoValue (Impl : Type) where
  | nil : GoValue Impl
  | impl (i : Impl) : GoValue Impl
  | other (n : Nat) : GoValue Impl
deriving Repr, DecidableEq

/-- The conversion of a service-typed interface value to `interface{}`, as at
the call `context.WithValue(ctx, key, s)`: nil stays nil. -/
def GoValue.ofService {Impl : Type} (s : Option Impl) : GoValue Impl :=
  match s with
  | none => GoValue.nil
  | some i => GoValue.impl i

/-- The chain of `context.WithValue` nodes above `context.Background()`. -/
inductive Context (Impl : Type) where
  | Background : Context Impl
  | WithValue (parent : Context Impl) (key : Key) (val : GoValue Impl) : Context Impl
deriving Repr, DecidableEq

variable {Impl : Type}

/-- The method `ctx.Value(key)`: `if c.key == key { return c.val }`, otherwise
ask the parent; the background context returns nil. -/
def Context.Value : Context Impl → Key → GoValue Impl
  | Context.Background, _ => GoValue.nil
  | Context.WithValue parent k v, key => if k = key then v else parent.Value key

/-- Some node of the chain was created with the given key. -/
def Context.binds : Context Impl → Key → Bool
  | Context.Background, _ => false
  | Context.WithValue parent k _, key => decide (k = key) || parent.binds key

/-- The comma-ok type assertion `s, ok := v.(<TypeName>)`: `(v, true)` when `v`
is non-nil and its dynamic type implements `<TypeName>`; otherwise the zero
value of `<TypeName>`, nil, and `false`. -/
def typeAssert (v : GoValue Impl) : Option Impl × Bool :=
  match v with
  | GoValue.nil => (none, false)
  | GoValue.impl i => (some i, true)
  | GoValue.other _ => (none, false)

/-- The struct `Services`: one field per descriptor, read by position. -/
abbrev Services (Impl : Type) := Nat → Option Impl

/-- The literal `Services{}`: every field nil. -/
def Services.zero : Services Impl := fun _ => none

/-- The `.Name` of the `x`-th descriptor. -/
def nameOf (tbl : List Descriptor) (x : Nat) : String :=
  match tbl[x]? with
  | some d => d.Name
  | none => ""

/-- The `.PkgName` of the `x`-th descriptor. -/
def pkgOf (tbl : List Descriptor) (x : Nat) : String :=
  match tbl[x]? with
  | some d => d.PkgName
  | none => ""

/-- Template `With<Name>`: `return context.WithValue(ctx, _<Name>Key, s)`. -/
def WithX (x : Nat) (ctx : Context Impl) (s : Option Impl) : Context Impl :=
  Context.WithValue ctx (XKey x) (GoValue.ofService s)

/-- The message of `panic("no <Name> set in context")`. -/
def noXSet (tbl : List Descriptor) (x : Nat) : String :=
  "no " ++ nameOf tbl x ++ " set in context"

/-- Template `<Name>`: the panicking lookup. -/
def X (tbl : List Descriptor) (x : Nat) (ctx : Context Impl) : Except String (Option Impl) :=
  let r := typeAssert (ctx.Value (XKey x))
  let s := r.1
  let ok := r.2
  if !ok || s.isNone then
    Except.error (noXSet tbl x)
  else
    Except.ok s

/-- Template `<Name>OrNil`: the lookup that returns nil. -/
def XOrNil (x : Nat) (ctx : Context Impl) : Option Impl :=
  let r := typeAssert (ctx.Value (XKey x))
  let s := r.1
  let ok := r.2
  if ok then s else none

/-- One unrolled block of the `range` in `WithServices`:
`if s.<Name> != nil { ctx = With<Name>(ctx, s.<Name>) }`. -/
def withServicesStep (s : Services Impl) (ctx : Context Impl) (x : Nat) : Context Impl :=
  if (s x).isSome then WithX x ctx (s x) else ctx

/-- The function `WithServices`: the blocks of all descriptors in table order. -/
def WithServices (tbl : List Descriptor) (ctx : Context Impl) (s : Services Impl) :
    Context Impl :=
  (List.range tbl.length).foldl (withServicesStep s) ctx

/-- One call `<PkgName>.Register<Name>Server(s, impl)` as seen by the server. -/
structure RegCall (Impl : Type) where
  svc : Nat
  fn : String
  impl : Option Impl
deriving Repr, DecidableEq

/-- The `*grpc.Server`, as the record of the registration calls made on it, in
call order. -/
abbrev Server (Impl : Type) := List (RegCall Impl)

/-- The external `<PkgName>.Register<Name>Server(s, srv)` of the `x`-th
descriptor. -/
def RegisterXServer (tbl : List Descriptor) (x : Nat) (s : Server Impl) (srv : Option Impl) :
    Server Impl :=
  s ++ [RegCall.mk x (pkgOf tbl x ++ ".Register" ++ nameOf tbl x ++ "Server") srv]

/-- One unrolled block of the `range` in `RegisterAll`. -/
def registerAllStep (tbl : List Descriptor) (svcs : Services Impl) (s : Server Impl) (x : Nat) :
    Server Impl :=
  if (svcs x).isSome then RegisterXServer tbl x s (svcs x) else s

/-- The function `RegisterAll`. -/
def RegisterAll (tbl : List Descriptor) (s : Server Impl) (svcs : Services Impl) : Server Impl :=
  (List.range tbl.length).foldl (registerAllStep tbl svcs) s

/-- The registration call `RegisterAll` makes for the `x`-th descriptor. -/
def callOf (tbl : List Descriptor) (svcs : Services Impl) (x : Nat) : RegCall Impl :=
  RegCall.mk x (pkgOf tbl x ++ ".Register" ++ nameOf tbl x ++ "Server") (svcs x)

/-- The table of the two-service scenario: `Search` and `Changesets`. -/
def scenarioTable : List Descriptor :=
  [⟨"Search", "sourcegraph.SearchServer", "sourcegraph"⟩,
   ⟨"Changesets", "sourcegraph.ChangesetsServer", "sourcegraph"⟩]

end svc

namespace changesets

/-!
The function `newChangesetInEditor`.

Go strings and byte slices that hold UTF-8 text are lists of Unicode code
points (`List Char`).  Splitting at the byte `\n`, testing for the leading byte
`#` and trimming white space give the same result on the bytes and on the code
points of valid UTF-8 text; byte sequences that are not valid UTF-8 are outside
the model.  An `error` value is its message.
-/

/-- Go `unicode.IsSpace`: in Latin-1 the characters `\t \n \v \f \r`, space,
U+0085 and U+00A0; above Latin-1 the `White_Space` property. -/
def IsSpace (r : Char) : Bool :=
  let n := r.toNat
  if n ≤ 0xFF then
    n == 0x09 || n == 0x0A || n == 0x0B || n == 0x0C || n == 0x0D || n == 0x20 ||
      n == 0x85 || n == 0xA0
  else
    n == 0x1680 || (0x2000 ≤ n && n ≤ 0x200A) || n == 0x2028 || n == 0x2029 ||
      n == 0x202F || n == 0x205F || n == 0x3000

/-- Go `bytes.TrimSpace` / `strings.TrimSpace`: drop the leading and the
trailing white space. -/
def TrimSpace (s : List Char) : List Char :=
  ((s.dropWhile IsSpace).reverse.dropWhile IsSpace).reverse

/-- Go `bytes.Split(s, sep)` for a separator of one byte: the pieces between the
occurrences of `sep`; always at least one piece. -/
def Split (s : List Char) (sep : Char) : List (List Char) :=
  match s with
  | [] => [[]]
  | c :: cs =>
    if c = sep then
      [] :: Split cs sep
    else
      match Split cs sep with
      | [] => [[c]]
      | l :: ls => (c :: l) :: ls

/-- Go `bytes.HasPrefix(s, pre)`. -/
def HasPrefix (s pre : List Char) : Bool := pre.isPrefixOf s

/-- The variables the `for` loop of `newChangesetInEditor` updates. -/
structure LoopState where
  title : List Char
  description : List Char
  hasTitle : Bool
deriving Repr, DecidableEq

/-- One iteration of `for _, line := range lines`. -/
def loopBody (st : LoopState) (line : List Char) : LoopState :=
  if HasPrefix line ['#'] then
    st
  else if !st.hasTitle then
    { st with title := TrimSpace line, hasTitle := true }
  else
    { st with description := st.description ++ line ++ ['\n'] }

/-- The three results `(title, description string, err error)`. -/
structure Result where
  title : List Char
  description : List Char
  err : Option String
deriving Repr, DecidableEq

/-- The message of `errors.New("aborting changeset due to empty title")`. -/
def errEmptyTitle : String := "aborting changeset due to empty title"

/-- The part of `newChangesetInEditor` after `bytes.Split`: the loop, the
trimming of the description and the empty-title check. -/
def parseLines (lines : List (List Char)) : Result :=
  let st := lines.foldl loopBody { title := [], description := [], hasTitle := false }
  let description := TrimSpace st.description
  if st.title = [] then
    { title := [], description := [], err := some errEmptyTitle }
  else
    { title := st.title, description := description, err := none }

/-- The text handed to the editor: `origTitle` followed by the comment block. -/
def contents (origTitle : List Char) : List Char :=
  origTitle ++ ("\n# Please enter the changeset title (in the first line) and description\n" ++
    "# (in the subsequent lines). Lines starting with \x27#\x27 will be ignored,\n" ++
    "# and an empty message aborts the changeset.\n").toList

/-- The function `newChangesetInEditor`; the external `tempedit.Edit` is the
parameter `edit`. -/
def newChangesetInEditor (edit : List Char → Except String (List Char))
    (origTitle : List Char) : Result :=
  match edit (contents origTitle) with
  | Except.error e => { title := [], description := [], err := some e }
  | Except.ok txt => parseLines (Split txt '\n')

end changesets

/-! ## Lemmas on the context model -/

namespace svc

variable {Impl : Type}

theorem X_eq_match (tbl : List Descriptor) (x : Nat) (ctx : Context Impl) :
    X tbl x ctx =
      match (typeAssert (ctx.Value (XKey x))).1 with
      | none => Except.error (noXSet tbl x)
      | some i => Except.ok (some i) := by
  unfold X typeAssert
  cases ctx.Value (XKey x) <;> simp

theorem typeAssert_ofService (s : Option Impl) :
    (typeAssert (GoValue.ofService s)).1 = s := by
  cases s <;> rfl

theorem XOrNil_eq_Value (x : Nat) (ctx : Context Impl) :
    XOrNil x ctx = (typeAssert (ctx.Value (XKey x))).1 := by
  unfold XOrNil typeAssert
  cases ctx.Value (XKey x) <;> simp

theorem XKey_injective {x y : Nat} (h : XKey x = XKey y) : x = y := by
  unfold XKey at h
  exact Key.contextKey.inj h

theorem Value_WithX_same (x : Nat) (ctx : Context Impl) (s : Option Impl) :
    (WithX x ctx s).Value (XKey x) = GoValue.ofService s := by
  simp [WithX, Context.Value]

theorem Value_WithX_other (x : Nat) (ctx : Context Impl) (s : Option Impl) (k : Key)
    (h : XKey x ≠ k) : (WithX x ctx s).Value k = ctx.Value k := by
  simp [WithX, Context.Value, h]

theorem Value_of_not_binds (ctx : Context Impl) (k : Key) (h : ctx.binds k = false) :
    ctx.Value k = GoValue.nil := by
  induction ctx with
  | Background => rfl
  | WithValue parent k1 v ih =>
    simp only [Context.binds, Bool.or_eq_false_iff, decide_eq_false_iff_not] at h
    simp [Context.Value, h.1, ih h.2]

theorem withServicesStep_of_isSome (s : Services Impl) (ctx : Context Impl) (x : Nat)
    (h : (s x).isSome = true) : withServicesStep s ctx x = WithX x ctx (s x) := by
  simp [withServicesStep, h]

theorem withServicesStep_of_not_isSome (s : Services Impl) (ctx : Context Impl) (x : Nat)
    (h : ¬ (s x).isSome = true) : withServicesStep s ctx x = ctx := by
  simp [withServicesStep, h]

/-- What the first `n` blocks of `WithServices` leave under the key of `x`. -/
theorem Value_foldl_withServicesStep (s : Services Impl) (x n : Nat) (ctx : Context Impl) :
    ((List.range n).foldl (withServicesStep s) ctx).Value (XKey x) =
      if x < n ∧ (s x).isSome then GoValue.ofService (s x) else ctx.Value (XKey x) := by
  induction n with
  | zero => simp
  | succ n ih =>
    rw [List.range_succ, List.foldl_append]
    simp only [List.foldl_cons, List.foldl_nil]
    by_cases hn : (s n).isSome = true
    · rw [withServicesStep_of_isSome _ _ _ hn]
      by_cases hxn : x = n
      · subst hxn
        rw [Value_WithX_same]
        simp [hn]
      · have hk : XKey n ≠ XKey x := fun h => hxn (XKey_injective h).symm
        rw [Value_WithX_other _ _ _ _ hk, ih]
        have : (x < n + 1) ↔ (x < n) := by omega
        simp only [this]
    · rw [withServicesStep_of_not_isSome _ _ _ hn, ih]
      by_cases hxn : x = n
      · subst hxn
        simp [hn]
      · have : (x < n + 1) ↔ (x < n) := by omega
        simp only [this]

theorem Value_WithServices (tbl : List Descriptor) (s : Services Impl) (x : Nat)
    (ctx : Context Impl) :
    (WithServices tbl ctx s).Value (XKey x) =
      if x < tbl.length ∧ (s x).isSome then GoValue.ofService (s x)
      else ctx.Value (XKey x) :=
  Value_foldl_withServicesStep s x tbl.length ctx

theorem Value_WithServices_nil_field (tbl : List Descriptor) (s : Services Impl) (x : Nat)
    (ctx : Context Impl) (h : s x = none) :
    (WithServices tbl ctx s).Value (XKey x) = ctx.Value (XKey x) := by
  rw [Value_WithServices]
  simp [h]

theorem X_eq_of_XOrNil (tbl : List Descriptor) (x : Nat) (ctx : Context Impl) :
    X tbl x ctx =
      match XOrNil x ctx with
      | none => Except.error (noXSet tbl x)
      | some i => Except.ok (some i) := by
  rw [X_eq_match, XOrNil_eq_Value]

theorem XOrNil_WithX (x : Nat) (ctx : Context Impl) (s : Option Impl) :
    XOrNil x (WithX x ctx s) = s := by
  rw [XOrNil_eq_Value, Value_WithX_same, typeAssert_ofService]

theorem XOrNil_of_not_binds (x : Nat) (ctx : Context Impl)
    (h : ctx.binds (XKey x) = false) : XOrNil x ctx = none := by
  rw [XOrNil_eq_Value, Value_of_not_binds ctx (XKey x) h]
  rfl

theorem XOrNil_WithServices (tbl : List Descriptor) (s : Services Impl) (x : Nat)
    (ctx : Context Impl) :
    XOrNil x (WithServices tbl ctx s) =
      if x < tbl.length ∧ (s x).isSome then s x else XOrNil x ctx := by
  rw [XOrNil_eq_Value, XOrNil_eq_Value, Value_WithServices]
  by_cases h : x < tbl.length ∧ (s x).isSome
  · rw [if_pos h, if_pos h, typeAssert_ofService]
  · rw [if_neg h, if_neg h]

theorem XOrNil_WithServices_nil_field (tbl : List Descriptor) (s : Services Impl) (x : Nat)
    (ctx : Context Impl) (h : s x = none) :
    XOrNil x (WithServices tbl ctx s) = XOrNil x ctx := by
  rw [XOrNil_eq_Value, XOrNil_eq_Value, Value_WithServices_nil_field tbl s x ctx h]

theorem noXSet_of_descriptor (tbl : List Descriptor) (x : Nat) (d : Descriptor)
    (hd : tbl[x]? = some d) : noXSet tbl x = "no " ++ d.Name ++ " set in context" := by
  simp [noXSet, nameOf, hd]

theorem foldl_withServicesStep_zero (l : List Nat) (ctx : Context Impl) :
    l.foldl (withServicesStep (Services.zero : Services Impl)) ctx = ctx := by
  induction l with
  | nil => rfl
  | cons a l ih => simpa [withServicesStep, Services.zero] using ih

theorem Value_foldl_WithServices (tbl : List Descriptor) (x : Nat)
    (Rs : List (Services Impl)) (hRs : ∀ R ∈ Rs, R x = none) (ctx : Context Impl) :
    (Rs.foldl (WithServices tbl) ctx).Value (XKey x) = ctx.Value (XKey x) := by
  induction Rs generalizing ctx with
  | nil => rfl
  | cons R Rs ih =>
    simp only [List.foldl_cons]
    rw [ih (fun R1 h1 => hRs R1 (List.mem_cons_of_mem _ h1))]
    exact Value_WithServices_nil_field tbl R x ctx (hRs R (List.mem_cons_self _ _))

theorem XOrNil_foldl_WithServices (tbl : List Descriptor) (x : Nat)
    (Rs : List (Services Impl)) (hRs : ∀ R ∈ Rs, R x = none) (ctx : Context Impl) :
    XOrNil x (Rs.foldl (WithServices tbl) ctx) = XOrNil x ctx := by
  rw [XOrNil_eq_Value, XOrNil_eq_Value, Value_foldl_WithServices tbl x Rs hRs]

theorem registerAllStep_of_isSome (tbl : List Descriptor) (svcs : Services Impl)
    (s : Server Impl) (x : Nat) (h : (svcs x).isSome = true) :
    registerAllStep tbl svcs s x = s ++ [callOf tbl svcs x] := by
  simp [registerAllStep, RegisterXServer, callOf, h]

theorem registerAllStep_of_not_isSome (tbl : List Descriptor) (svcs : Services Impl)
    (s : Server Impl) (x : Nat) (h : ¬ (svcs x).isSome = true) :
    registerAllStep tbl svcs s x = s := by
  simp [registerAllStep, h]

theorem RegisterAll_foldl_append (tbl : List Descriptor) (svcs : Services Impl)
    (l : List Nat) (s : Server Impl) :
    l.foldl (registerAllStep tbl svcs) s = s ++ l.foldl (registerAllStep tbl svcs) [] := by
  induction l using List.reverseRecOn with
  | nil => simp
  | append_singleton l a ih =>
    simp only [List.foldl_append, List.foldl_cons, List.foldl_nil]
    by_cases h : (svcs a).isSome = true
    · rw [registerAllStep_of_isSome _ _ _ _ h, registerAllStep_of_isSome _ _ _ _ h, ih,
        List.append_assoc]
    · rw [registerAllStep_of_not_isSome _ _ _ _ h, registerAllStep_of_not_isSome _ _ _ _ h]
      exact ih

theorem filter_foldl_registerAllStep (tbl : List Descriptor) (svcs : Services Impl)
    (x n : Nat) :
    ((List.range n).foldl (registerAllStep tbl svcs) []).filter (fun c => decide (c.svc = x)) =
      if x < n ∧ (svcs x).isSome then [callOf tbl svcs x] else [] := by
  induction n with
  | zero => simp
  | succ n ih =>
    rw [List.range_succ, List.foldl_append]
    simp only [List.foldl_cons, List.foldl_nil]
    by_cases hn : (svcs n).isSome = true
    · rw [registerAllStep_of_isSome _ _ _ _ hn, List.filter_append, ih]
      by_cases hxn : x = n
      · subst hxn
        simp [hn, callOf, List.filter]
      · have h1 : (x < n + 1) ↔ (x < n) := by omega
        have h2 : ¬ (n = x) := fun h => hxn h.symm
        simp [h1, h2, callOf, List.filter]
    · rw [registerAllStep_of_not_isSome _ _ _ _ hn, ih]
      by_cases hxn : x = n
      · subst hxn
        simp [hn]
      · have h1 : (x < n + 1) ↔ (x < n) := by omega
        simp only [h1]

end svc

/-! ## The claims on `gen_context.go` -/

namespace svc

variable {Impl : Type}

/-- C1 (override property): for every service `x`, every context `ctx`, whatever
it binds for `x`, and every non-nil implementation `impl`, the panicking lookup
on `WithX x ctx impl` does not panic and returns exactly `impl`. -/
theorem C1_X_WithX (tbl : List Descriptor) (x : Nat) (ctx : Context Impl) (impl : Impl) :
    X tbl x (WithX x ctx (some impl)) = Except.ok (some impl) := by
  rw [X_eq_of_XOrNil, XOrNil_WithX]

/-- C2: in a context none of whose nodes was created with the key of service
`x` (descriptor `d`), `XOrNil` returns nil and the panicking lookup panics with
the message "no <Name> set in context". -/
theorem C2_unbound (tbl : List Descriptor) (x : Nat) (d : Descriptor) (ctx : Context Impl)
    (hd : tbl[x]? = some d) (h : ctx.binds (XKey x) = false) :
    XOrNil x ctx = none ∧
      X tbl x ctx = Except.error ("no " ++ d.Name ++ " set in context") := by
  have hv := XOrNil_of_not_binds x ctx h
  refine ⟨hv, ?_⟩
  rw [X_eq_of_XOrNil, hv, noXSet_of_descriptor tbl x d hd]

/-- Witness of C2: the empty root context and a context that binds only
`Changesets`, looked up for `Search`. -/
theorem C2_unbound_witness :
    (XOrNil 0 (Context.Background : Context Nat) = none ∧
      X scenarioTable 0 (Context.Background : Context Nat) =
        Except.error "no Search set in context") ∧
    (XOrNil 0 (WithX 1 (Context.Background : Context Nat) (some 5)) = none ∧
      X scenarioTable 0 (WithX 1 (Context.Background : Context Nat) (some 5)) =
        Except.error "no Search set in context") :=
  ⟨C2_unbound scenarioTable 0 ⟨"Search", "sourcegraph.SearchServer", "sourcegraph"⟩
      Context.Background rfl rfl,
   C2_unbound scenarioTable 0 ⟨"Search", "sourcegraph.SearchServer", "sourcegraph"⟩
      (WithX 1 Context.Background (some 5)) rfl rfl⟩

/-- C3 (merge inheritance): for distinct services `x` and `y`, a parent `P` in
which the lookup of `x` returns `a`, and a registry `R` whose only non-nil field
is `y`, the keys of `x` and `y` differ, and in `WithServices P R` the lookup of
`x` still returns `a` while the lookup of `y` returns `R.y`. -/
theorem C3_merge_inherits (tbl : List Descriptor) (x y : Nat) (P : Context Impl)
    (R : Services Impl) (a b : Impl) (hxy : x ≠ y)
    (hy : y < tbl.length) (hP : X tbl x P = Except.ok (some a)) (hRy : R y = some b)
    (hR : ∀ z, z ≠ y → R z = none) :
    XKey x ≠ XKey y ∧
      X tbl x (WithServices tbl P R) = Except.ok (some a) ∧
      X tbl y (WithServices tbl P R) = Except.ok (R y) := by
  refine ⟨fun h => hxy (XKey_injective h), ?_, ?_⟩
  · rw [X_eq_of_XOrNil, XOrNil_WithServices_nil_field tbl R x P (hR x hxy), ← X_eq_of_XOrNil]
    exact hP
  · rw [X_eq_of_XOrNil, XOrNil_WithServices]
    simp [hy, hRy]

/-- Witness of C3: the scenario of the two services, `Search` bound to 1 in the
parent and the registry holding only `Changesets = 2`. -/
theorem C3_merge_inherits_witness :
    XKey 0 ≠ XKey 1 ∧
      X scenarioTable 0 (WithServices scenarioTable (WithX 0 (Context.Background : Context Nat) (some 1))
        (fun z => if z = 1 then some 2 else none)) = Except.ok (some 1) ∧
      X scenarioTable 1 (WithServices scenarioTable (WithX 0 (Context.Background : Context Nat) (some 1))
        (fun z => if z = 1 then some 2 else none)) = Except.ok (some 2) :=
  C3_merge_inherits scenarioTable 0 1 (WithX 0 Context.Background (some 1))
    (fun z => if z = 1 then some 2 else none) 1 2 (by decide) (by decide) rfl rfl
    (fun z hz => by simp [hz])

/-- C4 (merge override): for a service `x`, a parent `P` in which the lookup of
`x` returns `a`, and a registry `R` whose field `x` is a non-nil `b`, the lookup
of `x` in `WithServices P R` returns `b`; it returns `a` only when `a = b`. -/
theorem C4_merge_overrides (tbl : List Descriptor) (x : Nat) (P : Context Impl)
    (R : Services Impl) (a b : Impl) (hx : x < tbl.length)
    (_hP : X tbl x P = Except.ok (some a)) (hR : R x = some b) :
    X tbl x (WithServices tbl P R) = Except.ok (some b) ∧
      (a ≠ b → X tbl x (WithServices tbl P R) ≠ Except.ok (some a)) := by
  have h : X tbl x (WithServices tbl P R) = Except.ok (some b) := by
    rw [X_eq_of_XOrNil, XOrNil_WithServices]
    simp [hx, hR]
  refine ⟨h, fun hab hc => hab ?_⟩
  rw [h] at hc
  injection hc with hc
  injection hc with hc
  exact hc.symm

/-- Witness of C4: `Search` bound to 1 in the parent, the registry sets
`Search = 2` and `Changesets = 3`. -/
theorem C4_merge_overrides_witness :
    X scenarioTable 0 (WithServices scenarioTable (WithX 0 (Context.Background : Context Nat) (some 1))
        (fun z => if z = 0 then some 2 else some 3)) = Except.ok (some 2) ∧
      ((1 : Nat) ≠ 2 →
        X scenarioTable 0 (WithServices scenarioTable (WithX 0 (Context.Background : Context Nat) (some 1))
          (fun z => if z = 0 then some 2 else some 3)) ≠ Except.ok (some 1)) :=
  C4_merge_overrides scenarioTable 0 (WithX 0 Context.Background (some 1))
    (fun z => if z = 0 then some 2 else some 3) 1 2 (by decide) rfl rfl

/-- C5 (registrar selectivity): with the server as the record of registration
calls, `RegisterAll` keeps the calls already recorded and adds, for each service
`x` of the table whose field is non-nil, exactly one call, the one of `x` with
that field as argument; for a service whose field is nil, and for anything that
is not in the table, it adds no call. -/
theorem C5_RegisterAll_selective (tbl : List Descriptor) (s : Server Impl)
    (svcs : Services Impl) (x : Nat) :
    RegisterAll tbl s svcs = s ++ RegisterAll tbl [] svcs ∧
      (RegisterAll tbl [] svcs).filter (fun c => decide (c.svc = x)) =
        (if x < tbl.length then
          match svcs x with
          | some impl =>
            [RegCall.mk x (pkgOf tbl x ++ ".Register" ++ nameOf tbl x ++ "Server") (some impl)]
          | none => []
        else []) := by
  refine ⟨RegisterAll_foldl_append tbl svcs _ s, ?_⟩
  unfold RegisterAll
  rw [filter_foldl_registerAllStep]
  by_cases hx : x < tbl.length
  · cases h : svcs x <;> simp [hx, h, callOf]
  · simp [hx]

/-- C6, the claim as stated fails: with `Search` bound to 1, binding nil for
`Search` gives a context where `SearchOrNil` returns nil, not 1, and the
panicking lookup panics. -/
theorem C6_bind_nil_counterexample :
    X scenarioTable 0 (WithX 0 (Context.Background : Context Nat) (some 1)) = Except.ok (some 1) ∧
    XOrNil 0 (WithX 0 (WithX 0 (Context.Background : Context Nat) (some 1)) none) = none ∧
    XOrNil 0 (WithX 0 (WithX 0 (Context.Background : Context Nat) (some 1)) none) ≠ some 1 ∧
    X scenarioTable 0 (WithX 0 (WithX 0 (Context.Background : Context Nat) (some 1)) none) =
      Except.error "no Search set in context" :=
  ⟨rfl, rfl, by decide, rfl⟩

/-- C6 as amended: binding nil with `WithX` shadows whatever the context bound
for the service (descriptor `d`): `XOrNil` returns nil and the panicking lookup
panics; a nil field of a registry merged with `WithServices` is the no-op, both
lookups of that service give what they gave on the parent. -/
theorem C6_bind_nil_shadows (tbl : List Descriptor) (x : Nat) (d : Descriptor)
    (ctx : Context Impl) (R : Services Impl) (hd : tbl[x]? = some d) (hR : R x = none) :
    XOrNil x (WithX x ctx none) = none ∧
      X tbl x (WithX x ctx none) = Except.error ("no " ++ d.Name ++ " set in context") ∧
      XOrNil x (WithServices tbl ctx R) = XOrNil x ctx ∧
      X tbl x (WithServices tbl ctx R) = X tbl x ctx := by
  refine ⟨?_, ?_, ?_, ?_⟩
  · rw [XOrNil_WithX]
  · rw [X_eq_of_XOrNil, XOrNil_WithX, noXSet_of_descriptor tbl x d hd]
  · rw [XOrNil_WithServices_nil_field tbl R x ctx hR]
  · rw [X_eq_of_XOrNil, X_eq_of_XOrNil, XOrNil_WithServices_nil_field tbl R x ctx hR]

/-- Witness of the amended C6 on the two-service table, `Search` bound to 1. -/
theorem C6_bind_nil_shadows_witness :
    XOrNil 0 (WithX 0 (WithX 0 (Context.Background : Context Nat) (some 1)) none) = none ∧
      X scenarioTable 0 (WithX 0 (WithX 0 (Context.Background : Context Nat) (some 1)) none) =
        Except.error ("no " ++ "Search" ++ " set in context") ∧
      XOrNil 0 (WithServices scenarioTable (WithX 0 (Context.Background : Context Nat) (some 1))
        (fun z => if z = 1 then some 2 else none)) =
        XOrNil 0 (WithX 0 (Context.Background : Context Nat) (some 1)) ∧
      X scenarioTable 0 (WithServices scenarioTable (WithX 0 (Context.Background : Context Nat) (some 1))
        (fun z => if z = 1 then some 2 else none)) =
        X scenarioTable 0 (WithX 0 (Context.Background : Context Nat) (some 1)) :=
  C6_bind_nil_shadows scenarioTable 0 ⟨"Search", "sourcegraph.SearchServer", "sourcegraph"⟩
    (WithX 0 Context.Background (some 1)) (fun z => if z = 1 then some 2 else none) rfl rfl

/-- C7 (idempotence of absence): merging the registry whose fields are all nil
returns the parent context itself, so both lookups of every service give on the
result what they give on the parent. -/
theorem C7_WithServices_zero (tbl : List Descriptor) (P : Context Impl) (x : Nat) :
    WithServices tbl P Services.zero = P ∧
      XOrNil x (WithServices tbl P Services.zero) = XOrNil x P ∧
      X tbl x (WithServices tbl P Services.zero) = X tbl x P := by
  have h : WithServices tbl P Services.zero = P := foldl_withServicesStep_zero _ P
  rw [h]
  exact ⟨rfl, rfl, rfl⟩

/-- C8 (root presence determines reachability): let the root be the merge of
`R0` into the empty context and `ctx` the result of merging onto it, in order,
any list of registries that all leave `x` nil.  The panicking lookup of `x` in
`ctx` succeeds exactly when `R0.x` is non-nil; it then returns `R0.x`, and
otherwise it panics with "no <Name> set in context". -/
theorem C8_root_presence (tbl : List Descriptor) (x : Nat) (d : Descriptor)
    (R0 : Services Impl) (Rs : List (Services Impl)) (hd : tbl[x]? = some d)
    (hRs : ∀ R ∈ Rs, R x = none) :
    ((∃ v, X tbl x (Rs.foldl (WithServices tbl) (WithServices tbl Context.Background R0)) =
        Except.ok v) ↔ R0 x ≠ none) ∧
      (R0 x ≠ none →
        X tbl x (Rs.foldl (WithServices tbl) (WithServices tbl Context.Background R0)) =
          Except.ok (R0 x)) ∧
      (R0 x = none →
        X tbl x (Rs.foldl (WithServices tbl) (WithServices tbl Context.Background R0)) =
          Except.error ("no " ++ d.Name ++ " set in context")) := by
  have hx : x < tbl.length := by
    rcases Nat.lt_or_ge x tbl.length with h | h
    · exact h
    · rw [List.getElem?_eq_none h] at hd
      cases hd
  have hv : XOrNil x (Rs.foldl (WithServices tbl) (WithServices tbl Context.Background R0))
      = R0 x := by
    rw [XOrNil_foldl_WithServices tbl x Rs hRs, XOrNil_WithServices]
    cases h : R0 x
    · simp only [Option.isSome_none, Bool.false_eq_true, and_false, if_false]
      exact XOrNil_of_not_binds x Context.Background rfl
    · simp [hx]
  rw [X_eq_of_XOrNil, hv, noXSet_of_descriptor tbl x d hd]
  cases h : R0 x <;> simp

/-- Witness of C8: the root registry sets `Search = 1` only; two later merges
set only `Changesets`.  With `Search` nil in the root the lookup panics. -/
theorem C8_root_presence_witness :
    (((∃ v, X scenarioTable 0
        ([fun z => if z = 1 then some 2 else none, fun z => if z = 1 then some 3 else none].foldl
          (WithServices scenarioTable)
          (WithServices scenarioTable Context.Background
            (fun z => if z = 0 then some (1 : Nat) else none))) = Except.ok v) ↔
        (some (1 : Nat)) ≠ none) ∧
      ((some (1 : Nat)) ≠ none →
        X scenarioTable 0
          ([fun z => if z = 1 then some 2 else none, fun z => if z = 1 then some 3 else none].foldl
            (WithServices scenarioTable)
            (WithServices scenarioTable Context.Background
              (fun z => if z = 0 then some (1 : Nat) else none))) = Except.ok (some 1)) ∧
      ((some (1 : Nat)) = none →
        X scenarioTable 0
          ([fun z => if z = 1 then some 2 else none, fun z => if z = 1 then some 3 else none].foldl
            (WithServices scenarioTable)
            (WithServices scenarioTable Context.Background
              (fun z => if z = 0 then some (1 : Nat) else none))) =
          Except.error ("no " ++ "Search" ++ " set in context"))) :=
  C8_root_presence scenarioTable 0 ⟨"Search", "sourcegraph.SearchServer", "sourcegraph"⟩
    (fun z => if z = 0 then some (1 : Nat) else none)
    [fun z => if z = 1 then some 2 else none, fun z => if z = 1 then some 3 else none] rfl
    (fun R hR => by
      simp only [List.mem_cons, List.mem_singleton, List.not_mem_nil, or_false] at hR
      rcases hR with h | h <;> subst h <;> rfl)

/-- C9 (the two lookups agree): the panicking lookup returns `v` exactly when
`XOrNil` returns that same `v` and `v` is non-nil, and it panics (with the
message "no <Name> set in context") exactly when `XOrNil` returns nil. -/
theorem C9_lookups_agree (tbl : List Descriptor) (x : Nat) (ctx : Context Impl)
    (v : Option Impl) :
    (X tbl x ctx = Except.ok v ↔ (XOrNil x ctx = v ∧ v ≠ none)) ∧
      ((∃ msg, X tbl x ctx = Except.error msg) ↔ XOrNil x ctx = none) ∧
      (X tbl x ctx = Except.error (noXSet tbl x) ↔ XOrNil x ctx = none) := by
  rw [X_eq_of_XOrNil]
  cases h : XOrNil x ctx with
  | none =>
    refine ⟨?_, ?_, ?_⟩
    · constructor
      · intro h1; cases h1
      · rintro ⟨h1, h2⟩; exact absurd h1.symm h2
    · exact ⟨fun _ => rfl, fun _ => ⟨_, rfl⟩⟩
    · exact ⟨fun _ => rfl, fun _ => rfl⟩
  | some i =>
    refine ⟨?_, ?_, ?_⟩
    · constructor
      · intro h1
        injection h1 with h1
        subst h1
        exact ⟨rfl, by simp⟩
      · rintro ⟨h1, _⟩
        subst h1
        rfl
    · constructor
      · rintro ⟨msg, h1⟩; cases h1
      · intro h1; cases h1
    · constructor
      · intro h1; cases h1
      · intro h1; cases h1

end svc

/-! ## Lemmas on the changeset parser -/

namespace changesets

theorem TrimSpace_eq_rdropWhile (s : List Char) :
    TrimSpace s = (s.dropWhile IsSpace).rdropWhile IsSpace := rfl

theorem TrimSpace_eq_nil_iff (s : List Char) :
    TrimSpace s = [] ↔ s.all IsSpace = true := by
  rw [TrimSpace_eq_rdropWhile, List.rdropWhile_eq_nil_iff, List.all_eq_true]
  constructor
  · intro h
    have hnil : s.dropWhile IsSpace = [] := by
      have hh := List.head?_dropWhile_not IsSpace s
      cases hd : s.dropWhile IsSpace with
      | nil => rfl
      | cons a t =>
        rw [hd] at hh h
        simp only [List.head?_cons] at hh
        have := h a (List.mem_cons_self _ _)
        rw [this] at hh
        cases hh
    exact List.dropWhile_eq_nil_iff.mp hnil
  · intro h x hx
    exact h x ((List.dropWhile_sublist IsSpace).subset hx)

theorem TrimSpace_decomp (s : List Char) :
    s = s.takeWhile IsSpace ++ TrimSpace s ++ (s.dropWhile IsSpace).rtakeWhile IsSpace ∧
      (s.takeWhile IsSpace).all IsSpace = true ∧
      ((s.dropWhile IsSpace).rtakeWhile IsSpace).all IsSpace = true := by
  refine ⟨?_, ?_, ?_⟩
  · have h1 : (s.dropWhile IsSpace).rdropWhile IsSpace ++ (s.dropWhile IsSpace).rtakeWhile IsSpace
        = s.dropWhile IsSpace := by
      unfold List.rdropWhile List.rtakeWhile
      rw [← List.reverse_append, List.takeWhile_append_dropWhile, List.reverse_reverse]
    rw [TrimSpace_eq_rdropWhile, List.append_assoc, h1, List.takeWhile_append_dropWhile]
  · rw [List.all_eq_true]
    intro x hx
    exact List.mem_takeWhile_imp hx
  · rw [List.all_eq_true]
    intro x hx
    exact List.mem_rtakeWhile_imp hx

theorem TrimSpace_getLast?_not_space (s : List Char) (c : Char)
    (h : (TrimSpace s).getLast? = some c) : IsSpace c = false := by
  rw [TrimSpace_eq_rdropWhile] at h
  have hne : (s.dropWhile IsSpace).rdropWhile IsSpace ≠ [] := by
    intro h0
    rw [h0] at h
    cases h
  have := List.rdropWhile_last_not IsSpace (s.dropWhile IsSpace) hne
  rw [List.getLast?_eq_getLast _ hne] at h
  injection h with h
  rw [h] at this
  simpa using this

theorem TrimSpace_head?_not_space (s : List Char) (c : Char)
    (h : (TrimSpace s).head? = some c) : IsSpace c = false := by
  rw [TrimSpace_eq_rdropWhile] at h
  obtain ⟨t, ht⟩ := List.rdropWhile_prefix IsSpace (l := s.dropWhile IsSpace)
  have hh := List.head?_dropWhile_not IsSpace s
  cases hr : (s.dropWhile IsSpace).rdropWhile IsSpace with
  | nil =>
    rw [hr] at h
    cases h
  | cons a r =>
    rw [hr] at h ht
    simp only [List.head?_cons] at h
    injection h with h
    subst h
    rw [← ht] at hh
    simpa using hh

theorem loopBody_of_comment (st : LoopState) (line : List Char)
    (h : HasPrefix line ['#'] = true) : loopBody st line = st := by
  simp [loopBody, h]

theorem loopBody_title_of_hasTitle (st : LoopState) (line : List Char)
    (h : st.hasTitle = true) :
    (loopBody st line).title = st.title ∧ (loopBody st line).hasTitle = true := by
  unfold loopBody
  by_cases hc : HasPrefix line ['#'] = true
  · simp [hc, h]
  · simp [hc, h]

theorem foldl_loopBody_filter (lines : List (List Char)) (st : LoopState) :
    lines.foldl loopBody st =
      (lines.filter (fun l => !HasPrefix l ['#'])).foldl loopBody st := by
  induction lines generalizing st with
  | nil => rfl
  | cons l ls ih =>
    by_cases hc : HasPrefix l ['#'] = true
    · simp only [List.foldl_cons, loopBody_of_comment st l hc]
      rw [ih, List.filter_cons_of_neg (by simp [hc])]
    · rw [List.filter_cons_of_pos (by simpa using hc)]
      simp only [List.foldl_cons]
      exact ih _

theorem foldl_loopBody_title_of_hasTitle (lines : List (List Char)) (st : LoopState)
    (h : st.hasTitle = true) : (lines.foldl loopBody st).title = st.title := by
  induction lines generalizing st with
  | nil => rfl
  | cons l ls ih =>
    simp only [List.foldl_cons]
    rw [ih _ (loopBody_title_of_hasTitle st l h).2]
    exact (loopBody_title_of_hasTitle st l h).1

theorem foldl_loopBody_title (lines : List (List Char)) (st : LoopState)
    (h : st.hasTitle = false) :
    (lines.foldl loopBody st).title =
      match lines.find? (fun l => !HasPrefix l ['#']) with
      | none => st.title
      | some l => TrimSpace l := by
  induction lines generalizing st with
  | nil => rfl
  | cons l ls ih =>
    by_cases hc : HasPrefix l ['#'] = true
    · simp only [List.foldl_cons, loopBody_of_comment st l hc]
      rw [ih st h, List.find?_cons_of_neg _ (by simp [hc])]
    · rw [List.find?_cons_of_pos _ (by simpa using hc)]
      simp only [List.foldl_cons]
      have hb : loopBody st l = { st with title := TrimSpace l, hasTitle := true } := by
        simp [loopBody, hc, h]
      rw [hb, foldl_loopBody_title_of_hasTitle _ _ rfl]

/-- The title the loop leaves: the trimmed first line that does not begin with
`#`, or the empty string. -/
theorem parseLines_eq (lines : List (List Char)) :
    parseLines lines =
      match lines.find? (fun l => !HasPrefix l ['#']) with
      | none => { title := [], description := [], err := some errEmptyTitle }
      | some l =>
        if TrimSpace l = [] then
          { title := [], description := [], err := some errEmptyTitle }
        else
          { title := TrimSpace l,
            description := TrimSpace (lines.foldl loopBody
              { title := [], description := [], hasTitle := false }).description,
            err := none } := by
  unfold parseLines
  simp only
  rw [foldl_loopBody_title lines _ rfl]
  cases lines.find? (fun l => !HasPrefix l ['#']) with
  | none => simp
  | some l => simp

theorem newChangesetInEditor_of_ok (edit : List Char → Except String (List Char))
    (origTitle txt : List Char) (h : edit (contents origTitle) = Except.ok txt) :
    newChangesetInEditor edit origTitle = parseLines (Split txt '\n') := by
  unfold newChangesetInEditor
  rw [h]

end changesets

/-! ## The claim on `newChangesetInEditor` -/

namespace changesets

/-- C10: when the editor returns the text `txt`, (1) lines beginning with `#`
are ignored: the result is the one for the lines without them; (2) if every
line begins with `#` or holds only white space, the result is the error
"aborting changeset due to empty title" with empty title and description;
(3) that error is returned exactly when the first line not beginning with `#`
is missing or holds only white space, and then title and description are empty;
(4) otherwise there is no error and the title is that line without its leading
and trailing white space. -/
theorem C10_newChangesetInEditor (edit : List Char → Except String (List Char))
    (origTitle txt : List Char) (h : edit (contents origTitle) = Except.ok txt) :
    newChangesetInEditor edit origTitle =
        parseLines ((Split txt '\n').filter (fun l => !HasPrefix l ['#'])) ∧
      ((∀ l ∈ Split txt '\n', HasPrefix l ['#'] = true ∨ l.all IsSpace = true) →
        newChangesetInEditor edit origTitle =
          { title := [], description := [], err := some errEmptyTitle }) ∧
      ((newChangesetInEditor edit origTitle).err = some errEmptyTitle ↔
        ((Split txt '\n').find? (fun l => !HasPrefix l ['#']) = none ∨
          ∃ l, (Split txt '\n').find? (fun l => !HasPrefix l ['#']) = some l ∧
            l.all IsSpace = true)) ∧
      ((newChangesetInEditor edit origTitle).err = some errEmptyTitle →
        newChangesetInEditor edit origTitle =
          { title := [], description := [], err := some errEmptyTitle }) ∧
      (∀ l, (Split txt '\n').find? (fun l => !HasPrefix l ['#']) = some l →
        l.all IsSpace = false →
        (newChangesetInEditor edit origTitle).err = none ∧
          (newChangesetInEditor edit origTitle).title = TrimSpace l ∧
          (∃ pre post, l = pre ++ (newChangesetInEditor edit origTitle).title ++ post ∧
            pre.all IsSpace = true ∧ post.all IsSpace = true) ∧
          (∀ c, (newChangesetInEditor edit origTitle).title.head? = some c → IsSpace c = false) ∧
          (∀ c, (newChangesetInEditor edit origTitle).title.getLast? = some c →
            IsSpace c = false)) := by
  have h0 := newChangesetInEditor_of_ok edit origTitle txt h
  have hres := parseLines_eq (Split txt '\n')
  rw [← h0] at hres
  refine ⟨?_, ?_, ?_, ?_, ?_⟩
  · rw [h0]
    unfold parseLines
    rw [← foldl_loopBody_filter]
  · intro hall
    cases hf : (Split txt '\n').find? (fun l => !HasPrefix l ['#']) with
    | none => rw [hres, hf]
    | some l =>
      rw [hres, hf]
      have hmem := List.mem_of_find?_eq_some hf
      have hp := List.find?_some hf
      have hsp : l.all IsSpace = true := by
        rcases hall l hmem with h1 | h1
        · rw [h1] at hp
          cases hp
        · exact h1
      simp only [(TrimSpace_eq_nil_iff l).mpr hsp, if_true]
  · cases hf : (Split txt '\n').find? (fun l => !HasPrefix l ['#']) with
    | none =>
      rw [hres, hf]
      simp
    | some l =>
      rw [hres, hf]
      by_cases ht : TrimSpace l = []
      · simp only
        rw [if_pos ht]
        exact ⟨fun _ => Or.inr ⟨l, rfl, (TrimSpace_eq_nil_iff l).mp ht⟩, fun _ => rfl⟩
      · simp only
        rw [if_neg ht]
        constructor
        · intro he
          cases he
        · rintro (h1 | ⟨l1, h1, h2⟩)
          · cases h1
          · injection h1 with h1
            subst h1
            exact absurd ((TrimSpace_eq_nil_iff l).mpr h2) ht
  · intro herr
    cases hf : (Split txt '\n').find? (fun l => !HasPrefix l ['#']) with
    | none => rw [hres, hf]
    | some l =>
      rw [hres, hf] at herr ⊢
      by_cases ht : TrimSpace l = []
      · simp only [ht, if_true]
      · simp only [ht, if_false] at herr
        cases herr
  · intro l hf hsp
    have ht : ¬ TrimSpace l = [] := by
      intro hh
      rw [(TrimSpace_eq_nil_iff l).mp hh] at hsp
      cases hsp
    rw [hres, hf]
    simp only
    rw [if_neg ht]
    refine ⟨rfl, rfl, ⟨_, _, (TrimSpace_decomp l).1, (TrimSpace_decomp l).2.1,
      (TrimSpace_decomp l).2.2⟩, ?_, ?_⟩
    · exact TrimSpace_head?_not_space l
    · exact TrimSpace_getLast?_not_space l

/-- Witness of C10: an edited text with a comment line, a padded title and a
body; and a text made of a comment and a blank line, which aborts. -/
theorem C10_newChangesetInEditor_witness :
    ((fun _ => Except.ok "# c\n  Fix bug \nbody\n".toList :
        List Char → Except String (List Char)) (contents []) =
        Except.ok "# c\n  Fix bug \nbody\n".toList) ∧
      newChangesetInEditor (fun _ => Except.ok "# c\n  Fix bug \nbody\n".toList) [] =
        { title := "Fix bug".toList, description := "body".toList, err := none } ∧
      (newChangesetInEditor (fun _ => Except.ok "# c\n  Fix bug \nbody\n".toList) []).title =
        TrimSpace "  Fix bug ".toList ∧
      (∀ l ∈ Split "# c\n \t\n".toList '\n', HasPrefix l ['#'] = true ∨ l.all IsSpace = true) ∧
      newChangesetInEditor (fun _ => Except.ok "# c\n \t\n".toList) [] =
        { title := [], description := [], err := some errEmptyTitle } :=
  ⟨rfl, by decide,
    ((C10_newChangesetInEditor (fun _ => Except.ok "# c\n  Fix bug \nbody\n".toList) []
      "# c\n  Fix bug \nbody\n".toList rfl).2.2.2.2 "  Fix bug ".toList
        (by decide) (by decide)).2.1,
    by decide,
    (C10_newChangesetInEditor (fun _ => Except.ok "# c\n \t\n".toList) []
      "# c\n \t\n".toList rfl).2.1 (by decide)⟩

end changesets
